import Mathlib

/-!
Verification development for the `wt` git-worktree CLI (src/index.ts).

The TypeScript source is shallowly embedded below.  Strings are modelled by
Lean `String`, with the JavaScript string operations (`split`, `substring`,
`startsWith`, `trim`) re-implemented over `String.data` so that everything
evaluates in the kernel.  Effectful code is modelled by explicit state
passing: the filesystem is an existence predicate `String → Bool`, the
external `git` tool is an oracle (success/failure flags plus its trusted
effect on the state, per the collaborator contract), and `Effect.fail` /
thrown exceptions become explicit outcome values.
-/

namespace Wt

/-! ## String helpers (JavaScript semantics over `String.data`) -/

/-- JavaScript `s.split(sep)` for a one-character separator, over char lists.
`[] ↦ [[]]` matches `"".split(sep) == [""]`. -/
def splitOnChar (sep : Char) : List Char → List (List Char)
  | [] => [[]]
  | c :: rest =>
    let r := splitOnChar sep rest
    if c == sep then [] :: r
    else
      match r with
      | [] => [[c]]
      | piece :: pieces => (c :: piece) :: pieces

/-- The line decomposition `output.split("\n")` used by the parser. -/
def splitLines (s : String) : List String :=
  (splitOnChar (Char.ofNat 10) s.data).map fun cs => (⟨cs⟩ : String)

/-- JavaScript `s.startsWith(pre)`. -/
def strStartsWith (s pre : String) : Bool :=
  pre.data.isPrefixOf s.data

/-- JavaScript `s.substring(n)`. -/
def strDrop (s : String) (n : Nat) : String :=
  ⟨s.data.drop n⟩

/-- Whitespace recognised by JavaScript `trim` (the characters relevant to
subprocess output). -/
def isSpaceChar (c : Char) : Bool :=
  c == ' ' || c == Char.ofNat 9 || c == Char.ofNat 10 || c == Char.ofNat 13

/-- JavaScript `s.trim()`. -/
def strTrim (s : String) : String :=
  ⟨((s.data.dropWhile isSpaceChar).reverse.dropWhile isSpaceChar).reverse⟩

/-! ## Data model: `WorktreeInfo`

The source declares `interface WorktreeInfo` with four mandatory fields but
builds values as `Partial<WorktreeInfo>` and casts them with
`as WorktreeInfo`, so a field can be absent (`undefined`) in records that
reach the output.  We model each field as an `Option`, `none` standing for
`undefined`. -/

structure WorktreeInfo where
  name : Option String := none
  path : Option String := none
  branch : Option String := none
  current : Option Bool := none
  deriving DecidableEq, Repr

/-- JavaScript truthiness of `current.path` (absent or empty string is falsy). -/
def pathTruthy : Option String → Bool
  | some s => !(s == "")
  | none => false

/-- `current.path.split("/").pop() || ""` — the `name` derivation. -/
def deriveName (p : String) : String :=
  match (splitOnChar '/' p.data).getLast? with
  | some cs => if (⟨cs⟩ : String) == "" then "" else ⟨cs⟩
  | none => ""

/-- The two assignments performed when a group is closed (blank line or end
of input): `name` from the path, `current` by comparison with `process.cwd()`. -/
def closeRecord (cur : WorktreeInfo) (cwd : String) : WorktreeInfo :=
  let p := cur.path.getD ""
  { cur with name := some (deriveName p), current := some (p == cwd) }

/-- One iteration of the `for (const line of lines)` loop in `getWorktrees`.
State is `(worktrees, current)`. -/
def parseStep (cwd : String) (st : List WorktreeInfo × WorktreeInfo) (line : String) :
    List WorktreeInfo × WorktreeInfo :=
  let ws := st.1
  let cur := st.2
  if strStartsWith line "worktree " then
    (if pathTruthy cur.path then ws ++ [cur] else ws, { path := some (strDrop line 9) })
  else if strStartsWith line "branch " then
    (ws, { cur with branch := some (strDrop line 7) })
  else if line == "bare" then
    (ws, { cur with current := some false })
  else if line == "detached" then
    (ws, { cur with branch := some "detached" })
  else if line == "" then
    if pathTruthy cur.path then (ws ++ [closeRecord cur cwd], {}) else (ws, cur)
  else (ws, cur)

/-- The flush after the loop: an in-progress record with a truthy path is
completed and emitted at end of input. -/
def finishParse (cwd : String) (r : List WorktreeInfo × WorktreeInfo) : List WorktreeInfo :=
  if pathTruthy r.2.path then r.1 ++ [closeRecord r.2 cwd] else r.1

/-- The porcelain parser: the loop of `getWorktrees` over `output.split("\n")`,
followed by the trailing flush of an in-progress record at end of input. -/
def parseWorktrees (output : String) (cwd : String) : List WorktreeInfo :=
  finishParse cwd ((splitLines output).foldl (parseStep cwd) ([], {}))

/-- `execCommand`: runs a subprocess and yields the trimmed output; any
failure is converted to the empty string by
`Effect.orElse(() => Effect.succeed(""))`.  The oracle `result` is `none`
when the invocation fails. -/
def execCommand (result : Option String) : String :=
  match result with
  | some out => strTrim out
  | none => ""

/-- `getWorktrees`: discovery.  `execResult` is the oracle outcome of
`git worktree list --porcelain`; empty output short-circuits to `[]`. -/
def getWorktrees (execResult : Option String) (cwd : String) : List WorktreeInfo :=
  let output := execCommand execResult
  if output == "" then [] else parseWorktrees output cwd

/-- A record is complete in the sense of the spec: `name` populated as the
final path segment of `path`, and `isCurrent` set. -/
def recordComplete (r : WorktreeInfo) : Bool :=
  r.name.isSome && r.current.isSome && (r.name == some (deriveName (r.path.getD "")))

/-! ## Well-formed porcelain input

A worktree group is a `worktree <path>` line followed by attribute lines,
terminated by a blank line (or, for the last group, by end of input).  The
attribute lines are taken from the grammar the parser recognises; `other`
covers unrecognised lines, constrained by `wellFormed` to not collide with
a recognised prefix. -/

inductive GroupLine
  | branchLine (ref : String)
  | bare
  | detached
  | other (s : String)
  deriving DecidableEq, Repr

def GroupLine.render : GroupLine → String
  | .branchLine ref => "branch " ++ ref
  | .bare => "bare"
  | .detached => "detached"
  | .other s => s

def GroupLine.wellFormed : GroupLine → Bool
  | .other s =>
    !(strStartsWith s "worktree ") && !(strStartsWith s "branch ") &&
      !(s == "bare") && !(s == "detached") && !(s == "")
  | _ => true

structure Group where
  path : String
  attrs : List GroupLine
  deriving DecidableEq, Repr

/-- The lines of a group without its blank-line terminator. -/
def Group.renderOpen (g : Group) : List String :=
  ("worktree " ++ g.path) :: g.attrs.map GroupLine.render

/-- The lines of a blank-line-terminated group. -/
def Group.render (g : Group) : List String :=
  g.renderOpen ++ [""]

def Group.wellFormed (g : Group) : Bool :=
  !(g.path == "") && g.attrs.all GroupLine.wellFormed

def renderLines : List Group → List String
  | [] => []
  | g :: gs => Group.render g ++ renderLines gs

/-- Effect of one attribute line on the in-progress record, as the parser
applies it. -/
def applyAttr (cur : WorktreeInfo) : GroupLine → WorktreeInfo
  | .branchLine r => { cur with branch := some r }
  | .bare => { cur with current := some false }
  | .detached => { cur with branch := some "detached" }
  | .other _ => cur

def applyAttrs (cur : WorktreeInfo) (attrs : List GroupLine) : WorktreeInfo :=
  attrs.foldl applyAttr cur

/-- The branch value contributed by an attribute line, if any. -/
def attrBranchValue : GroupLine → Option String
  | .branchLine r => some r
  | .detached => some "detached"
  | _ => none

/-- The branch field of a parsed group: the last branch-setting line wins. -/
def lastBranchValue : List GroupLine → Option String
  | [] => none
  | a :: rest =>
    match lastBranchValue rest with
    | some v => some v
    | none => attrBranchValue a

/-- The record the parser is expected to produce for a well-formed group:
`path` from the `worktree` line, `name` its final segment, `branch` the last
branch-setting line of the group, `isCurrent` by comparison with the
process working directory. -/
def expectedRecord (cwd : String) (g : Group) : WorktreeInfo :=
  { name := some (deriveName g.path), path := some g.path,
    branch := lastBranchValue g.attrs, current := some (g.path == cwd) }

/-- Lines contributed by an optional final group closed by end of input
rather than by a blank line. -/
def tailLines : Option Group → List String
  | some g => g.renderOpen
  | none => []

/-- Records expected from an optional final end-of-input-closed group. -/
def tailRecords (cwd : String) : Option Group → List WorktreeInfo
  | some g => [expectedRecord cwd g]
  | none => []

/-! ## Path computation

`join(WORKTREES_DIR, name)` from Node `path.join`: concatenation with `/`
followed by segment normalisation (empty and `.` segments dropped, `..`
resolved against the previous segment).  Trailing-separator preservation is
not modelled; no claim depends on it. -/

def WORKTREES_DIR : String := ".worktrees"

def normStep (acc : List String) (seg : String) : List String :=
  if seg == "" || seg == "." then acc
  else if seg == ".." then
    match acc.getLast? with
    | none => [".."]
    | some l => if l == ".." then acc ++ [".."] else acc.dropLast
  else acc ++ [seg]

def joinPath (a b : String) : String :=
  let segs := (splitOnChar '/' (a.data ++ '/' :: b.data)).map fun cs => (⟨cs⟩ : String)
  let ns := segs.foldl normStep []
  if ns == [] then "." else String.intercalate "/" ns

/-- A path addresses the managed worktree root or something strictly inside it. -/
def isUnderManagedRoot (p : String) : Bool :=
  p == WORKTREES_DIR || strStartsWith p (WORKTREES_DIR ++ "/")

/-! ## Lifecycle commands

Error values correspond to the error kinds of the design (the source fails
with `new Error(...)` messages naming the same conditions).  `fsExists` is
`existsSync` / `fs.exists`; external-tool invocations are recorded, and
their trusted effects on the state are applied explicitly where a claim
needs them. -/

inductive WtError
  | notFound (name : String)
  | alreadyExists (name : String)
  | registryInconsistency (name : String)
  deriving DecidableEq, Repr

structure GitCall where
  cmd : String
  args : List String
  deriving DecidableEq, Repr

structure CreateResult where
  err : Option WtError
  invocations : List GitCall
  targetPath : String
  deriving DecidableEq, Repr

/-- `createCommand`: guard on `existsSync(worktreePath)`, then
`git worktree add -b name worktreePath`.  (The lazy `mkdirSync` of the root
touches only the root directory, not the target path.) -/
def createCommand (fsExists : String → Bool) (name : String) : CreateResult :=
  let worktreePath := joinPath WORKTREES_DIR name
  if fsExists worktreePath then
    { err := some (.alreadyExists name), invocations := [], targetPath := worktreePath }
  else
    { err := none,
      invocations := [⟨"git", ["worktree", "add", "-b", name, worktreePath]⟩],
      targetPath := worktreePath }

/-- Trusted effect of a successful create: the external tool makes the
target directory exist. -/
def fsAfterCreate (fsExists : String → Bool) (name : String) : String → Bool :=
  if (createCommand fsExists name).err = none then
    fun p => p == (createCommand fsExists name).targetPath || fsExists p
  else fsExists

structure SwitchResult where
  err : Option WtError
  spawnedSubshell : Bool
  targetPath : String
  deriving DecidableEq, Repr

/-- `switchCommand`: guard on `existsSync(worktreePath)`; only the
fall-through branch reaches `Bun.spawn`. -/
def switchCommand (fsExists : String → Bool) (name : String) : SwitchResult :=
  let worktreePath := joinPath WORKTREES_DIR name
  if fsExists worktreePath then
    { err := none, spawnedSubshell := true, targetPath := worktreePath }
  else
    { err := some (.notFound name), spawnedSubshell := false, targetPath := worktreePath }

structure RemoveResult where
  err : Option WtError
  invocations : List GitCall
  targetPath : String
  deriving DecidableEq, Repr

/-- `removeCommand`: guard on `existsSync(worktreePath)`, then
`git worktree remove worktreePath`. -/
def removeCommand (fsExists : String → Bool) (name : String) : RemoveResult :=
  let worktreePath := joinPath WORKTREES_DIR name
  if fsExists worktreePath then
    { err := none, invocations := [⟨"git", ["worktree", "remove", worktreePath]⟩],
      targetPath := worktreePath }
  else
    { err := some (.notFound name), invocations := [], targetPath := worktreePath }

/-! ## Rename (current variant, src lines 339-389)

Process-level state for rename: the filesystem view, the working directory
of the calling process, and the branch the external registry binds to each
worktree directory.  `moveOk` / `branchOk` are the success oracles of the
two git invocations — `execCommand` swallows their failures, so a failed
invocation simply has no effect and yields the empty string. -/

structure ProcState where
  fsExists : String → Bool
  cwd : String
  branchAt : String → Option String

/-- Trusted effect of a successful `git worktree move old new`. -/
def moveEffect (st : ProcState) (oldPath newPath : String) : ProcState :=
  { st with
    fsExists := fun p => if p == oldPath then false else if p == newPath then true else st.fsExists p,
    branchAt := fun p =>
      if p == newPath then st.branchAt oldPath
      else if p == oldPath then none
      else st.branchAt p }

inductive RenameOutcome
  | success
  | failure (e : WtError)
  /-- `process.chdir` threw: the effect dies without reaching the end of the
  generator.  The working directory is unchanged by the failed `chdir` itself. -/
  | chdirCrash
  deriving DecidableEq, Repr

structure RenameResult where
  outcome : RenameOutcome
  state : ProcState
  oldPath : String
  newPath : String

/-- The `git branch -m` effect: renames the branch of the worktree the
process currently sits in (`process.chdir(newPath)` has already happened,
so the current directory is the worktree to rebind). -/
def branchRenameAtCwd (st2 : ProcState) (newName : String) : ProcState :=
  { st2 with branchAt := fun p => if p == st2.cwd then some newName else st2.branchAt p }

/-- Lines 377-385 of the source: capture `process.cwd()`, `chdir` into the
moved worktree, run `git branch -m newName` (failure swallowed), `chdir`
back.  A `chdir` to or from a non-existent directory throws, killing the
effect with the working directory as the failed `chdir` left it. -/
def chdirRenameChdir (st1 : ProcState) (branchOk : Bool)
    (oldPath newPath newName : String) : RenameResult :=
  let currentDir := st1.cwd
  if !(st1.fsExists newPath) then
    ⟨.chdirCrash, st1, oldPath, newPath⟩
  else
    let st2 := { st1 with cwd := newPath }
    let st3 := if branchOk then branchRenameAtCwd st2 newName else st2
    if !(st3.fsExists currentDir) then
      ⟨.chdirCrash, st3, oldPath, newPath⟩
    else
      ⟨.success, { st3 with cwd := currentDir }, oldPath, newPath⟩

/-- `renameCommand` (current variant): existence checks, registry lookup via
`getWorktrees`, `git worktree move`, then `chdir` into the moved directory,
`git branch -m newName`, and `chdir` back.  `porcelain` is the oracle output
of `git worktree list --porcelain` for the lookup. -/
def renameCommand (st : ProcState) (porcelain : Option String)
    (moveOk branchOk : Bool) (oldName newName : String) : RenameResult :=
  let oldPath := joinPath WORKTREES_DIR oldName
  let newPath := joinPath WORKTREES_DIR newName
  if !(st.fsExists oldPath) then
    ⟨.failure (.notFound oldName), st, oldPath, newPath⟩
  else if st.fsExists newPath then
    ⟨.failure (.alreadyExists newName), st, oldPath, newPath⟩
  else
    let worktrees := getWorktrees porcelain st.cwd
    match worktrees.find? fun wt => wt.name == some oldName with
    | none => ⟨.failure (.registryInconsistency oldName), st, oldPath, newPath⟩
    | some _ =>
      let st1 := if moveOk then moveEffect st oldPath newPath else st
      chdirRenameChdir st1 branchOk oldPath newPath newName

/-! ## Abstract repository model for the two rename variants

For the refinement claim the repository is the external tool's durable
state: the worktree registry (directory path, checked-out branch) and the
branch namespace.  The git primitives both variants invoke are modelled per
the collaborator contract. -/

structure Repo where
  worktrees : List (String × String)
  branches : List String
  deriving DecidableEq, Repr

def gitWorktreeRemove (r : Repo) (p : String) : Repo :=
  { r with worktrees := r.worktrees.filter fun e => !(e.1 == p) }

/-- `git branch -m old new`: renames the branch and rebinds every worktree
checked out on it. -/
def gitBranchRenameExplicit (r : Repo) (old new : String) : Repo :=
  { worktrees := r.worktrees.map fun e => if e.2 == old then (e.1, new) else e,
    branches := r.branches.map fun b => if b == old then new else b }

def gitWorktreeAdd (r : Repo) (p b : String) : Repo :=
  { r with worktrees := r.worktrees ++ [(p, b)] }

def gitWorktreeMove (r : Repo) (old new : String) : Repo :=
  { r with worktrees := r.worktrees.map fun e => if e.1 == old then (new, e.2) else e }

/-- `git branch -m new` run with working directory `cwdPath`: renames the
branch currently checked out there. -/
def gitBranchRenameCurrent (r : Repo) (cwdPath new : String) : Repo :=
  match r.worktrees.find? fun e => e.1 == cwdPath with
  | some e => gitBranchRenameExplicit r e.2 new
  | none => r

/-- Earlier rename variant (src lines 160-167): remove the old worktree,
rename the branch by explicit old/new name, re-add at the new path. -/
def renameEarlier (r : Repo) (oldPath newPath branch newName : String) : Repo :=
  gitWorktreeAdd (gitBranchRenameExplicit (gitWorktreeRemove r oldPath) branch newName)
    newPath newName

/-- Later rename variant (src lines 374-385): move the worktree, then rename
the current branch from inside the moved directory. -/
def renameLater (r : Repo) (oldPath newPath newName : String) : Repo :=
  gitBranchRenameCurrent (gitWorktreeMove r oldPath newPath) newPath newName

/-- The branch bound to the worktree at path `p`, per the registry. -/
def lookupBranch (r : Repo) (p : String) : Option String :=
  (r.worktrees.find? fun e => e.1 == p).map fun e => e.2

/-! ## Helper lemmas: string classification -/

theorem isPrefixOf_append_self (l t : List Char) : l.isPrefixOf (l ++ t) = true := by
  induction l with
  | nil => simp [List.isPrefixOf]
  | cons a as ih => simp [List.isPrefixOf, ih]

theorem isPrefixOf_cons_ne (a b : Char) (as bs : List Char) (h : (a == b) = false) :
    (a :: as).isPrefixOf (b :: bs) = false := by
  simp [List.isPrefixOf, h]

theorem strStartsWith_append_self (pre rest : String) :
    strStartsWith (pre ++ rest) pre = true := by
  show pre.data.isPrefixOf (pre ++ rest).data = true
  rw [String.data_append]
  exact isPrefixOf_append_self pre.data rest.data

theorem strDrop_append (pre rest : String) (n : Nat) (h : pre.data.length = n) :
    strDrop (pre ++ rest) n = rest := by
  subst h
  show (⟨(pre ++ rest).data.drop pre.data.length⟩ : String) = rest
  rw [String.data_append, List.drop_left]

theorem branch_line_not_worktree (r : String) :
    strStartsWith ("branch " ++ r) "worktree " = false := by
  show ("worktree " : String).data.isPrefixOf ("branch " ++ r).data = false
  rw [String.data_append]
  have hw : ("worktree " : String).data = 'w' :: ("orktree " : String).data := rfl
  have hb : ("branch " : String).data = 'b' :: ("ranch " : String).data := rfl
  rw [hw, hb, List.cons_append]
  exact isPrefixOf_cons_ne _ _ _ _ (by decide)

/-! ## Helper lemmas: single parser steps -/

theorem parseStep_worktree (cwd : String) (ws : List WorktreeInfo) (cur : WorktreeInfo)
    (p : String) :
    parseStep cwd (ws, cur) ("worktree " ++ p) =
      (if pathTruthy cur.path then ws ++ [cur] else ws, { path := some p }) := by
  have hd : strDrop ("worktree " ++ p) 9 = p := strDrop_append "worktree " p 9 rfl
  simp [parseStep, strStartsWith_append_self, hd]

theorem parseStep_branch (cwd : String) (ws : List WorktreeInfo) (cur : WorktreeInfo)
    (r : String) :
    parseStep cwd (ws, cur) ("branch " ++ r) = (ws, { cur with branch := some r }) := by
  have hd : strDrop ("branch " ++ r) 7 = r := strDrop_append "branch " r 7 rfl
  simp [parseStep, branch_line_not_worktree, strStartsWith_append_self, hd]

theorem parseStep_bare (cwd : String) (ws : List WorktreeInfo) (cur : WorktreeInfo) :
    parseStep cwd (ws, cur) "bare" = (ws, { cur with current := some false }) := by
  have h1 : strStartsWith "bare" "worktree " = false := by decide
  have h2 : strStartsWith "bare" "branch " = false := by decide
  simp [parseStep, h1, h2]

theorem parseStep_detached (cwd : String) (ws : List WorktreeInfo) (cur : WorktreeInfo) :
    parseStep cwd (ws, cur) "detached" = (ws, { cur with branch := some "detached" }) := by
  have h1 : strStartsWith "detached" "worktree " = false := by decide
  have h2 : strStartsWith "detached" "branch " = false := by decide
  have h3 : (("detached" : String) == "bare") = false := by decide
  simp [parseStep, h1, h2, h3]

theorem parseStep_blank (cwd : String) (ws : List WorktreeInfo) (cur : WorktreeInfo) :
    parseStep cwd (ws, cur) "" =
      if pathTruthy cur.path then (ws ++ [closeRecord cur cwd], {}) else (ws, cur) := by
  have h1 : strStartsWith "" "worktree " = false := by decide
  have h2 : strStartsWith "" "branch " = false := by decide
  have h3 : (("" : String) == "bare") = false := by decide
  have h4 : (("" : String) == "detached") = false := by decide
  simp [parseStep, h1, h2, h3, h4]

theorem parseStep_other (cwd : String) (ws : List WorktreeInfo) (cur : WorktreeInfo)
    (s : String) (h : GroupLine.wellFormed (GroupLine.other s) = true) :
    parseStep cwd (ws, cur) s = (ws, cur) := by
  simp only [GroupLine.wellFormed, Bool.and_eq_true, Bool.not_eq_true'] at h
  obtain ⟨⟨⟨⟨h1, h2⟩, h3⟩, h4⟩, h5⟩ := h
  simp [parseStep, h1, h2, h3, h4, h5]

/-! ## Helper lemmas: attribute folds and whole-group folds -/

theorem applyAttrs_path (cur : WorktreeInfo) (attrs : List GroupLine) :
    (applyAttrs cur attrs).path = cur.path := by
  induction attrs generalizing cur with
  | nil => rfl
  | cons a rest ih =>
    show (applyAttrs (applyAttr cur a) rest).path = cur.path
    rw [ih]
    cases a <;> rfl

theorem applyAttrs_name (cur : WorktreeInfo) (attrs : List GroupLine) :
    (applyAttrs cur attrs).name = cur.name := by
  induction attrs generalizing cur with
  | nil => rfl
  | cons a rest ih =>
    show (applyAttrs (applyAttr cur a) rest).name = cur.name
    rw [ih]
    cases a <;> rfl

theorem applyAttrs_branch (cur : WorktreeInfo) (attrs : List GroupLine) :
    (applyAttrs cur attrs).branch =
      match lastBranchValue attrs with
      | some v => some v
      | none => cur.branch := by
  induction attrs generalizing cur with
  | nil => rfl
  | cons a rest ih =>
    show (applyAttrs (applyAttr cur a) rest).branch = _
    rw [ih]
    cases h : lastBranchValue rest <;>
      cases a <;> simp [lastBranchValue, attrBranchValue, applyAttr, h]

theorem foldl_attrs (cwd : String) (attrs : List GroupLine)
    (hwf : ∀ a ∈ attrs, a.wellFormed = true) (ws : List WorktreeInfo) (cur : WorktreeInfo) :
    (attrs.map GroupLine.render).foldl (parseStep cwd) (ws, cur) = (ws, applyAttrs cur attrs) := by
  induction attrs generalizing cur with
  | nil => rfl
  | cons a rest ih =>
    have hrest : ∀ x ∈ rest, x.wellFormed = true := fun x hx =>
      hwf x (List.mem_cons_of_mem a hx)
    show ((GroupLine.render a :: rest.map GroupLine.render).foldl (parseStep cwd) (ws, cur)) = _
    rw [List.foldl_cons]
    have hstep : parseStep cwd (ws, cur) (GroupLine.render a) = (ws, applyAttr cur a) := by
      cases a with
      | branchLine r => exact parseStep_branch cwd ws cur r
      | bare => exact parseStep_bare cwd ws cur
      | detached => exact parseStep_detached cwd ws cur
      | other s => exact parseStep_other cwd ws cur s (hwf _ (List.mem_cons_self _ rest))
    rw [hstep]
    exact ih hrest (applyAttr cur a)

theorem close_apply_eq_expected (cwd : String) (g : Group) :
    closeRecord (applyAttrs { path := some g.path } g.attrs) cwd = expectedRecord cwd g := by
  have hp := applyAttrs_path { path := some g.path } g.attrs
  have hn := applyAttrs_name { path := some g.path } g.attrs
  have hb : (applyAttrs { path := some g.path } g.attrs).branch = lastBranchValue g.attrs := by
    rw [applyAttrs_branch]
    cases lastBranchValue g.attrs <;> rfl
  cases hrec : applyAttrs { path := some g.path } g.attrs with
  | mk name path branch current =>
    rw [hrec] at hp hn hb
    simp only at hp hn hb
    simp [closeRecord, expectedRecord, hp, hn, hb]

theorem group_wf_path (g : Group) (h : g.wellFormed = true) : g.path ≠ "" := by
  simp only [Group.wellFormed, Bool.and_eq_true] at h
  intro heq
  have h1 := h.1
  rw [heq] at h1
  simp at h1

theorem group_wf_attrs (g : Group) (h : g.wellFormed = true) :
    ∀ a ∈ g.attrs, a.wellFormed = true := by
  simp only [Group.wellFormed, Bool.and_eq_true, List.all_eq_true] at h
  exact h.2

theorem pathTruthy_some (p : String) (h : p ≠ "") : pathTruthy (some p) = true := by
  simp [pathTruthy, h]

theorem foldl_group (cwd : String) (g : Group) (hwf : g.wellFormed = true)
    (ws : List WorktreeInfo) (rest : List String) :
    (Group.render g ++ rest).foldl (parseStep cwd) (ws, {}) =
      rest.foldl (parseStep cwd) (ws ++ [expectedRecord cwd g], {}) := by
  have hpath := group_wf_path g hwf
  have hattrs := group_wf_attrs g hwf
  show ((("worktree " ++ g.path) :: (g.attrs.map GroupLine.render ++ [""])) ++ rest).foldl
      (parseStep cwd) (ws, {}) = _
  rw [List.cons_append, List.foldl_cons, parseStep_worktree]
  have hinit : pathTruthy ({} : WorktreeInfo).path = false := rfl
  rw [hinit, if_neg (by simp), List.append_assoc, List.singleton_append, List.foldl_append,
    foldl_attrs cwd g.attrs hattrs ws { path := some g.path }, List.foldl_cons, parseStep_blank,
    if_pos (by rw [applyAttrs_path]; exact pathTruthy_some g.path hpath),
    close_apply_eq_expected]

theorem foldl_open_group (cwd : String) (g : Group) (hwf : g.wellFormed = true)
    (ws : List WorktreeInfo) :
    (Group.renderOpen g).foldl (parseStep cwd) (ws, {}) =
      (ws, applyAttrs { path := some g.path } g.attrs) := by
  have hattrs := group_wf_attrs g hwf
  show ((("worktree " ++ g.path) :: g.attrs.map GroupLine.render)).foldl (parseStep cwd) (ws, {}) = _
  rw [List.foldl_cons, parseStep_worktree]
  have hinit : pathTruthy ({} : WorktreeInfo).path = false := rfl
  rw [hinit, if_neg (by simp)]
  exact foldl_attrs cwd g.attrs hattrs ws { path := some g.path }

theorem foldl_groups (cwd : String) (gs : List Group)
    (hwf : ∀ g ∈ gs, g.wellFormed = true) (ws : List WorktreeInfo) (rest : List String) :
    (renderLines gs ++ rest).foldl (parseStep cwd) (ws, {}) =
      rest.foldl (parseStep cwd) (ws ++ gs.map (expectedRecord cwd), {}) := by
  induction gs generalizing ws with
  | nil => simp [renderLines]
  | cons g gs ih =>
    show ((Group.render g ++ renderLines gs) ++ rest).foldl (parseStep cwd) (ws, {}) = _
    rw [List.append_assoc, foldl_group cwd g (hwf g (List.mem_cons_self g gs)) ws
      (renderLines gs ++ rest)]
    rw [ih (fun x hx => hwf x (List.mem_cons_of_mem g hx)) (ws ++ [expectedRecord cwd g])]
    simp

/-- Main parser lemma: a well-formed input of blank-line-terminated groups,
optionally followed by one group closed by end of input, parses to the
expected record of each group in order. -/
theorem parse_wf (output cwd : String) (gs : List Group) (tail : Option Group)
    (hsplit : splitLines output = renderLines gs ++ tailLines tail)
    (hwf : ∀ g ∈ gs, g.wellFormed = true)
    (hwft : ∀ g, tail = some g → g.wellFormed = true) :
    parseWorktrees output cwd = gs.map (expectedRecord cwd) ++ tailRecords cwd tail := by
  cases tail with
  | none =>
    have hsplit2 : splitLines output = renderLines gs ++ [] := hsplit
    unfold parseWorktrees
    rw [hsplit2, foldl_groups cwd gs hwf [] []]
    show finishParse cwd ([] ++ gs.map (expectedRecord cwd), {}) = _
    simp [finishParse, pathTruthy, tailRecords]
  | some g =>
    have hsplit2 : splitLines output = renderLines gs ++ Group.renderOpen g := hsplit
    have hg := hwft g rfl
    have hpath := group_wf_path g hg
    unfold parseWorktrees
    rw [hsplit2, foldl_groups cwd gs hwf [] (Group.renderOpen g), foldl_open_group cwd g hg]
    have hfin : pathTruthy (applyAttrs { path := some g.path } g.attrs).path = true := by
      rw [applyAttrs_path]
      exact pathTruthy_some g.path hpath
    simp [finishParse, hfin, close_apply_eq_expected, tailRecords]

theorem expected_complete (cwd : String) (g : Group) :
    recordComplete (expectedRecord cwd g) = true := by
  simp [recordComplete, expectedRecord]

theorem mem_parse_wf_expected (output cwd : String) (gs : List Group) (tail : Option Group)
    (hsplit : splitLines output = renderLines gs ++ tailLines tail)
    (hwf : ∀ g ∈ gs, g.wellFormed = true)
    (hwft : ∀ g, tail = some g → g.wellFormed = true) :
    ∀ rec ∈ parseWorktrees output cwd, ∃ g, rec = expectedRecord cwd g := by
  rw [parse_wf output cwd gs tail hsplit hwf hwft]
  intro rec hrec
  rcases List.mem_append.mp hrec with h | h
  · obtain ⟨g, _, rfl⟩ := List.mem_map.mp h
    exact ⟨g, rfl⟩
  · cases tail with
    | none => simp [tailRecords] at h
    | some g =>
      simp only [tailRecords, List.mem_singleton] at h
      exact ⟨g, h⟩

/-! ## Claim theorems -/

/-- C3: for any well-formed porcelain input consisting of N blank-line-terminated
worktree groups, the parser produces exactly N records, in the order the groups
appeared, with each record's fields determined by its group: `path` from the
`worktree` line, `name` its final segment, `branch` the last branch-setting
line of the group, `isCurrent` by comparison with the working directory. -/
theorem parser_roundtrip_groups (output cwd : String) (gs : List Group)
    (hsplit : splitLines output = renderLines gs)
    (hwf : ∀ g ∈ gs, g.wellFormed = true) :
    parseWorktrees output cwd = gs.map (expectedRecord cwd) ∧
      (parseWorktrees output cwd).length = gs.length := by
  have h := parse_wf output cwd gs none (by simpa [tailLines] using hsplit) hwf
    (fun g hg => nomatch hg)
  simp only [tailRecords, List.append_nil] at h
  exact ⟨h, by rw [h, List.length_map]⟩

/-- C3 witness: a concrete two-group porcelain listing parses to exactly the
two expected records. -/
theorem parser_roundtrip_groups_witness :
    parseWorktrees "worktree /r/a\nbranch refs/heads/x\n\nworktree /r/b\ndetached\n" "/r/a" =
      ([⟨"/r/a", [.branchLine "refs/heads/x"]⟩, ⟨"/r/b", [.detached]⟩] : List Group).map
        (expectedRecord "/r/a") ∧
      (parseWorktrees "worktree /r/a\nbranch refs/heads/x\n\nworktree /r/b\ndetached\n"
        "/r/a").length = 2 :=
  parser_roundtrip_groups "worktree /r/a\nbranch refs/heads/x\n\nworktree /r/b\ndetached\n"
    "/r/a" [⟨"/r/a", [.branchLine "refs/heads/x"]⟩, ⟨"/r/b", [.detached]⟩]
    (by decide) (by decide)

/-- C2 counterexample: on the input where a group is closed by the next
`worktree ` line rather than a blank line, the flushed record's `name` and
`isCurrent` are both unset, so not every output record is complete. -/
theorem parser_incomplete_record_cex :
    ¬ (∀ rec ∈ parseWorktrees "worktree /a\nworktree /b" "/x", recordComplete rec = true) := by
  decide

/-- C2 (amended): every record of a group closed by a blank line or by end of
input is complete — `name` populated as the final path segment and `isCurrent`
set; only a group flushed by a following `worktree ` line (which well-formed
porcelain never produces) is emitted incomplete. -/
theorem parser_complete_records_amended (output cwd : String) (gs : List Group)
    (tail : Option Group)
    (hsplit : splitLines output = renderLines gs ++ tailLines tail)
    (hwf : ∀ g ∈ gs, g.wellFormed = true)
    (hwft : ∀ g, tail = some g → g.wellFormed = true) :
    ∀ rec ∈ parseWorktrees output cwd, recordComplete rec = true := by
  intro rec hrec
  obtain ⟨g, rfl⟩ := mem_parse_wf_expected output cwd gs tail hsplit hwf hwft rec hrec
  exact expected_complete cwd g

/-- C2 witness: the amended completeness theorem applied to a one-group input
closed by end of input. -/
theorem parser_complete_records_amended_witness :
    recordComplete ({ name := some "a", path := some "/r/a", branch := none,
                      current := some false } : WorktreeInfo) = true :=
  parser_complete_records_amended "worktree /r/a" "/x" [] (some ⟨"/r/a", []⟩)
    (by decide) (by decide) (by intro g hg; cases hg; decide)
    ({ name := some "a", path := some "/r/a", branch := none, current := some false } :
      WorktreeInfo)
    (by decide)

/-- C4 counterexample: a path with a trailing slash parses to a record whose
`name` is the empty string — trailing slashes are not normalized. -/
theorem name_trailing_slash_cex :
    (parseWorktrees "worktree /repo/.worktrees/foo/" "/x").map WorktreeInfo.name =
        [some ""] ∧
      (parseWorktrees "worktree /repo/.worktrees/foo/" "/x").map WorktreeInfo.path =
        [some "/repo/.worktrees/foo/"] := by
  decide

/-- C4 (amended): every parsed record's `name` equals the final `/`-delimited
segment of its `path` (so `/repo/.worktrees/foo` yields `foo`), with no
trailing-slash normalization: a path ending in `/` yields the empty name. -/
theorem name_last_segment_amended (output cwd : String) (gs : List Group)
    (tail : Option Group)
    (hsplit : splitLines output = renderLines gs ++ tailLines tail)
    (hwf : ∀ g ∈ gs, g.wellFormed = true)
    (hwft : ∀ g, tail = some g → g.wellFormed = true) :
    (∀ rec ∈ parseWorktrees output cwd,
      rec.name = some (deriveName (rec.path.getD ""))) ∧
      deriveName "/repo/.worktrees/foo" = "foo" ∧
      deriveName "/repo/.worktrees/foo/" = "" := by
  refine ⟨?_, by decide, by decide⟩
  intro rec hrec
  obtain ⟨g, rfl⟩ := mem_parse_wf_expected output cwd gs tail hsplit hwf hwft rec hrec
  simp [expectedRecord]

/-- C4 witness: the amended name-derivation theorem applied to a concrete
one-group input. -/
theorem name_last_segment_amended_witness :
    ({ name := some "a", path := some "/r/a", branch := none,
       current := some false } : WorktreeInfo).name = some (deriveName "/r/a") ∧
      deriveName "/repo/.worktrees/foo" = "foo" ∧
      deriveName "/repo/.worktrees/foo/" = "" :=
  have h := name_last_segment_amended "worktree /r/a" "/x" [] (some ⟨"/r/a", []⟩)
    (by decide) (by decide) (by intro g hg; cases hg; decide)
  ⟨h.1 ({ name := some "a", path := some "/r/a", branch := none,
          current := some false } : WorktreeInfo)
    (by decide), h.2.1, h.2.2⟩

/-- C6: discovery on a failed external-tool call (`none`), on empty output, or
on whitespace-only output yields the empty record sequence; `getWorktrees` is
total, so no error is ever raised. -/
theorem discovery_empty_or_failed (cwd : String) :
    getWorktrees none cwd = [] ∧ getWorktrees (some "") cwd = [] ∧
      getWorktrees (some " \n ") cwd = [] :=
  ⟨rfl, rfl, rfl⟩

/-- C5: Create on an already-existing target directory fails with
`alreadyExists` and issues no external-tool invocation; and after a first
successful Create (whose trusted effect makes the directory exist), a second
Create with the same name fails with `alreadyExists` and issues no
invocation. -/
theorem create_already_exists_guard :
    (∀ fs : String → Bool, ∀ name : String, fs (joinPath WORKTREES_DIR name) = true →
      (createCommand fs name).err = some (WtError.alreadyExists name) ∧
        (createCommand fs name).invocations = []) ∧
    (∀ fs : String → Bool, ∀ name : String, fs (joinPath WORKTREES_DIR name) = false →
      (createCommand fs name).err = none ∧
        (createCommand (fsAfterCreate fs name) name).err =
          some (WtError.alreadyExists name) ∧
        (createCommand (fsAfterCreate fs name) name).invocations = []) := by
  constructor
  · intro fs name h
    simp [createCommand, h]
  · intro fs name h
    have h1 : (createCommand fs name).err = none := by simp [createCommand, h]
    have h2 : fsAfterCreate fs name (joinPath WORKTREES_DIR name) = true := by
      simp [fsAfterCreate, h1, createCommand, h]
    exact ⟨h1, by simp [createCommand, h2], by simp [createCommand, h2]⟩

/-- C5 witness: both guards at a concrete filesystem and name. -/
theorem create_already_exists_guard_witness :
    ((createCommand (fun _ => true) "feat").err = some (WtError.alreadyExists "feat") ∧
      (createCommand (fun _ => true) "feat").invocations = []) ∧
    ((createCommand (fun _ => false) "feat").err = none ∧
      (createCommand (fsAfterCreate (fun _ => false) "feat") "feat").err =
        some (WtError.alreadyExists "feat") ∧
      (createCommand (fsAfterCreate (fun _ => false) "feat") "feat").invocations = []) :=
  ⟨create_already_exists_guard.1 (fun _ => true) "feat" rfl,
   create_already_exists_guard.2 (fun _ => false) "feat" rfl⟩

/-- C9: Switch on a name whose directory does not exist fails with `notFound`
and never reaches the subshell-spawning branch. -/
theorem switch_not_found_no_subshell (fs : String → Bool) (name : String)
    (h : fs (joinPath WORKTREES_DIR name) = false) :
    (switchCommand fs name).err = some (WtError.notFound name) ∧
      (switchCommand fs name).spawnedSubshell = false := by
  simp [switchCommand, h]

/-- C9 witness: the guard at a concrete filesystem and name. -/
theorem switch_not_found_no_subshell_witness :
    (switchCommand (fun _ => false) "ghost").err = some (WtError.notFound "ghost") ∧
      (switchCommand (fun _ => false) "ghost").spawnedSubshell = false :=
  switch_not_found_no_subshell (fun _ => false) "ghost" rfl

/-- C10: every lifecycle operation computes its target path as the literal
`path.join` of the constant worktree root and the user-supplied name, with no
validation of the name; a name containing `..` segments therefore addresses a
path outside the managed root. -/
theorem lifecycle_paths_unsanitized :
    (∀ fs : String → Bool, ∀ name : String,
      (createCommand fs name).targetPath = joinPath WORKTREES_DIR name) ∧
    (∀ fs : String → Bool, ∀ name : String,
      (switchCommand fs name).targetPath = joinPath WORKTREES_DIR name) ∧
    (∀ fs : String → Bool, ∀ name : String,
      (removeCommand fs name).targetPath = joinPath WORKTREES_DIR name) ∧
    (∀ st : ProcState, ∀ porcelain : Option String, ∀ moveOk branchOk : Bool,
      ∀ oldName newName : String,
      (renameCommand st porcelain moveOk branchOk oldName newName).oldPath =
        joinPath WORKTREES_DIR oldName ∧
      (renameCommand st porcelain moveOk branchOk oldName newName).newPath =
        joinPath WORKTREES_DIR newName) ∧
    (joinPath WORKTREES_DIR "../escaped" = "escaped" ∧
      isUnderManagedRoot "escaped" = false) ∧
    (joinPath WORKTREES_DIR "../../etc/passwd" = "../etc/passwd" ∧
      isUnderManagedRoot "../etc/passwd" = false) := by
  refine ⟨?_, ?_, ?_, ?_, by decide, by decide⟩
  · intro fs name
    simp only [createCommand]
    split <;> rfl
  · intro fs name
    simp only [switchCommand]
    split <;> rfl
  · intro fs name
    simp only [removeCommand]
    split <;> rfl
  · intro st porcelain moveOk branchOk oldName newName
    simp only [renameCommand, chdirRenameChdir]
    constructor <;> (repeat' split) <;> rfl

theorem chdirRenameChdir_cwd (st1 : ProcState) (branchOk : Bool)
    (oldPath newPath newName : String) (h : st1.fsExists st1.cwd = true) :
    (chdirRenameChdir st1 branchOk oldPath newPath newName).state.cwd = st1.cwd := by
  have hfs : (if branchOk then branchRenameAtCwd { st1 with cwd := newPath } newName
      else { st1 with cwd := newPath }).fsExists = st1.fsExists := by
    cases branchOk <;> rfl
  simp only [chdirRenameChdir]
  split
  · rfl
  · rw [hfs]
    rw [h]
    simp

theorem chdirRenameChdir_noBranch (st1 : ProcState) (oldPath newPath newName : String)
    (h1 : st1.fsExists newPath = true) (h2 : st1.fsExists st1.cwd = true) :
    chdirRenameChdir st1 false oldPath newPath newName =
      ⟨RenameOutcome.success, st1, oldPath, newPath⟩ := by
  simp [chdirRenameChdir, h1, h2]

theorem moveEffect_cwd (st : ProcState) (oldPath newPath : String) :
    (moveEffect st oldPath newPath).cwd = st.cwd := rfl

theorem moveEffect_fs_cwd (st : ProcState) (oldPath newPath : String)
    (hcwd : st.fsExists st.cwd = true) (hne : st.cwd ≠ oldPath) :
    (moveEffect st oldPath newPath).fsExists st.cwd = true := by
  have h1 : (st.cwd == oldPath) = false := beq_eq_false_iff_ne.mpr hne
  simp only [moveEffect]
  split
  · rename_i hc
    rw [h1] at hc
    simp at hc
  · split
    · rfl
    · exact hcwd

/-- C7: during Rename the calling process's working directory, though
temporarily changed by `process.chdir`, equals its prior value in the final
state on every exit path — all precondition failures, a failed move (the
subsequent `chdir` throws before changing directory), and the full success
path.  Hypotheses: the invoking directory exists and is not itself the
worktree directory being moved away. -/
theorem rename_restores_cwd (st : ProcState) (porcelain : Option String)
    (moveOk branchOk : Bool) (oldName newName : String)
    (hcwd : st.fsExists st.cwd = true)
    (hnot : st.cwd ≠ joinPath WORKTREES_DIR oldName) :
    (renameCommand st porcelain moveOk branchOk oldName newName).state.cwd = st.cwd := by
  simp only [renameCommand]
  split
  · rfl
  · split
    · rfl
    · split
      · rfl
      · by_cases hm : moveOk
        · rw [if_pos hm]
          have h1 : (moveEffect st (joinPath WORKTREES_DIR oldName)
              (joinPath WORKTREES_DIR newName)).fsExists
                (moveEffect st (joinPath WORKTREES_DIR oldName)
                  (joinPath WORKTREES_DIR newName)).cwd = true := by
            rw [moveEffect_cwd]
            exact moveEffect_fs_cwd st _ _ hcwd hnot
          rw [chdirRenameChdir_cwd _ branchOk _ _ newName h1, moveEffect_cwd]
        · rw [if_neg hm]
          exact chdirRenameChdir_cwd st branchOk _ _ newName hcwd

/-- C7 witness: the restoration theorem at a concrete state and inputs. -/
theorem rename_restores_cwd_witness :
    (renameCommand
        ⟨fun p => p == "/repo" || p == ".worktrees/old", "/repo",
          fun p => if p == ".worktrees/old" then some "refs/heads/old" else none⟩
        (some "worktree /repo/.worktrees/old\nbranch refs/heads/old")
        true true "old" "new").state.cwd = "/repo" :=
  rename_restores_cwd
    ⟨fun p => p == "/repo" || p == ".worktrees/old", "/repo",
      fun p => if p == ".worktrees/old" then some "refs/heads/old" else none⟩
    (some "worktree /repo/.worktrees/old\nbranch refs/heads/old")
    true true "old" "new" (by decide) (by decide)

/-- C1 counterexample: with the directory move forced to succeed and the
branch rename forced to fail, `renameCommand` reports success — not failure
as the claim states — while the moved directory is still bound to the old
branch name. -/
theorem rename_reports_success_cex :
    (renameCommand
        ⟨fun p => p == "/repo" || p == ".worktrees/old", "/repo",
          fun p => if p == ".worktrees/old" then some "refs/heads/old" else none⟩
        (some "worktree /repo/.worktrees/old\nbranch refs/heads/old")
        true false "old" "new").outcome = RenameOutcome.success ∧
    (renameCommand
        ⟨fun p => p == "/repo" || p == ".worktrees/old", "/repo",
          fun p => if p == ".worktrees/old" then some "refs/heads/old" else none⟩
        (some "worktree /repo/.worktrees/old\nbranch refs/heads/old")
        true false "old" "new").state.fsExists ".worktrees/new" = true ∧
    (renameCommand
        ⟨fun p => p == "/repo" || p == ".worktrees/old", "/repo",
          fun p => if p == ".worktrees/old" then some "refs/heads/old" else none⟩
        (some "worktree /repo/.worktrees/old\nbranch refs/heads/old")
        true false "old" "new").state.branchAt ".worktrees/new" = some "refs/heads/old" := by
  decide

/-- C1 (amended): if the directory-move step succeeds and the branch-rename
step fails, the resulting state has a directory at the new path still bound
to the old branch name, but the operation reports success, not failure — the
command wrapper maps every git failure to empty output, so no error is ever
surfaced after the precondition checks. -/
theorem rename_partial_failure_amended (st : ProcState) (porcelain : Option String)
    (oldName newName : String)
    (hold : st.fsExists (joinPath WORKTREES_DIR oldName) = true)
    (hnew : st.fsExists (joinPath WORKTREES_DIR newName) = false)
    (hfind : (getWorktrees porcelain st.cwd).find? (fun wt => wt.name == some oldName) ≠ none)
    (hcwd : st.fsExists st.cwd = true)
    (hnot : st.cwd ≠ joinPath WORKTREES_DIR oldName) :
    (renameCommand st porcelain true false oldName newName).outcome =
        RenameOutcome.success ∧
      (renameCommand st porcelain true false oldName newName).state.fsExists
        (joinPath WORKTREES_DIR newName) = true ∧
      (renameCommand st porcelain true false oldName newName).state.fsExists
        (joinPath WORKTREES_DIR oldName) = false ∧
      (renameCommand st porcelain true false oldName newName).state.branchAt
        (joinPath WORKTREES_DIR newName) = st.branchAt (joinPath WORKTREES_DIR oldName) := by
  have hne : joinPath WORKTREES_DIR newName ≠ joinPath WORKTREES_DIR oldName := by
    intro h
    rw [h, hold] at hnew
    cases hnew
  have hmovefs : (moveEffect st (joinPath WORKTREES_DIR oldName)
      (joinPath WORKTREES_DIR newName)).fsExists (joinPath WORKTREES_DIR newName) = true := by
    simp [moveEffect, hne]
  have hmovecwd : (moveEffect st (joinPath WORKTREES_DIR oldName)
      (joinPath WORKTREES_DIR newName)).fsExists (moveEffect st
        (joinPath WORKTREES_DIR oldName) (joinPath WORKTREES_DIR newName)).cwd = true := by
    rw [moveEffect_cwd]
    exact moveEffect_fs_cwd st _ _ hcwd hnot
  cases hf : (getWorktrees porcelain st.cwd).find? (fun wt => wt.name == some oldName) with
  | none => exact absurd hf hfind
  | some wt0 =>
    have hmain : renameCommand st porcelain true false oldName newName =
        chdirRenameChdir (moveEffect st (joinPath WORKTREES_DIR oldName)
          (joinPath WORKTREES_DIR newName)) false (joinPath WORKTREES_DIR oldName)
          (joinPath WORKTREES_DIR newName) newName := by
      simp [renameCommand, hold, hnew, hf]
    rw [hmain, chdirRenameChdir_noBranch _ _ _ _ hmovefs hmovecwd]
    refine ⟨rfl, hmovefs, ?_, ?_⟩
    · simp [moveEffect]
    · simp [moveEffect]

/-- C1 witness: the amended theorem at the concrete forced-failure state. -/
theorem rename_partial_failure_amended_witness :
    (renameCommand
        ⟨fun p => p == "/repo" || p == ".worktrees/alpha", "/repo",
          fun p => if p == ".worktrees/alpha" then some "refs/heads/alpha" else none⟩
        (some "worktree /repo/.worktrees/alpha\nbranch refs/heads/alpha")
        true false "alpha" "beta").outcome = RenameOutcome.success ∧
      (renameCommand
        ⟨fun p => p == "/repo" || p == ".worktrees/alpha", "/repo",
          fun p => if p == ".worktrees/alpha" then some "refs/heads/alpha" else none⟩
        (some "worktree /repo/.worktrees/alpha\nbranch refs/heads/alpha")
        true false "alpha" "beta").state.fsExists (joinPath WORKTREES_DIR "beta") = true ∧
      (renameCommand
        ⟨fun p => p == "/repo" || p == ".worktrees/alpha", "/repo",
          fun p => if p == ".worktrees/alpha" then some "refs/heads/alpha" else none⟩
        (some "worktree /repo/.worktrees/alpha\nbranch refs/heads/alpha")
        true false "alpha" "beta").state.fsExists (joinPath WORKTREES_DIR "alpha") = false ∧
      (renameCommand
        ⟨fun p => p == "/repo" || p == ".worktrees/alpha", "/repo",
          fun p => if p == ".worktrees/alpha" then some "refs/heads/alpha" else none⟩
        (some "worktree /repo/.worktrees/alpha\nbranch refs/heads/alpha")
        true false "alpha" "beta").state.branchAt (joinPath WORKTREES_DIR "beta") =
        (⟨fun p => p == "/repo" || p == ".worktrees/alpha", "/repo",
          fun p => if p == ".worktrees/alpha" then some "refs/heads/alpha" else none⟩ :
          ProcState).branchAt (joinPath WORKTREES_DIR "alpha") :=
  rename_partial_failure_amended
    ⟨fun p => p == "/repo" || p == ".worktrees/alpha", "/repo",
      fun p => if p == ".worktrees/alpha" then some "refs/heads/alpha" else none⟩
    (some "worktree /repo/.worktrees/alpha\nbranch refs/heads/alpha")
    "alpha" "beta" (by decide) (by decide) (by decide) (by decide) (by decide)

theorem filter_keep_of_ne (l : List (String × String)) (x : String)
    (h : ∀ e ∈ l, e.1 ≠ x) : (l.filter fun e => !(e.1 == x)) = l := by
  induction l with
  | nil => rfl
  | cons e rest ih =>
    have he : (e.1 == x) = false := beq_eq_false_iff_ne.mpr (h e (List.mem_cons_self e rest))
    simp [List.filter_cons, he, ih fun y hy => h y (List.mem_cons_of_mem e hy)]

theorem map_move_of_ne (l : List (String × String)) (o np : String)
    (h : ∀ e ∈ l, e.1 ≠ o) :
    (l.map fun e => if e.1 == o then (np, e.2) else e) = l := by
  induction l with
  | nil => rfl
  | cons e rest ih =>
    have he : (e.1 == o) = false := beq_eq_false_iff_ne.mpr (h e (List.mem_cons_self e rest))
    rw [List.map_cons, if_neg (by simp [he]), ih fun y hy => h y (List.mem_cons_of_mem e hy)]

theorem find?_fst_none (l : List (String × String)) (np : String)
    (h : ∀ e ∈ l, e.1 ≠ np) : (l.find? fun e => e.1 == np) = none := by
  induction l with
  | nil => rfl
  | cons e rest ih =>
    have he : (e.1 == np) = false := beq_eq_false_iff_ne.mpr (h e (List.mem_cons_self e rest))
    simp [List.find?, he, ih fun y hy => h y (List.mem_cons_of_mem e hy)]

theorem find?_branchmap_none (l : List (String × String)) (b newName np : String)
    (h : ∀ e ∈ l, e.1 ≠ np) :
    ((l.map fun e => if e.2 == b then (e.1, newName) else e).find?
      fun e => e.1 == np) = none := by
  induction l with
  | nil => rfl
  | cons e rest ih =>
    have he : (e.1 == np) = false := beq_eq_false_iff_ne.mpr (h e (List.mem_cons_self e rest))
    have ht := ih fun y hy => h y (List.mem_cons_of_mem e hy)
    rw [List.map_cons]
    cases hb : e.2 == b
    · rw [if_neg (by simp [hb]), List.find?_cons_of_neg _ (by simp [he]), ht]
    · rw [if_pos (by simp [hb]), List.find?_cons_of_neg _ (by simp [he]), ht]

/-- C8: the earlier rename variant (remove worktree, rename branch by
explicit old/new name, re-add worktree) and the later variant (move worktree,
rename the current branch from inside) produce the same final repository
state whenever their shared preconditions hold: identical branch namespaces,
the same worktree registry up to registration order, and in both the new
path is bound to a branch named `newName`. -/
theorem rename_variants_equivalent (l1 l2 : List (String × String))
    (branches : List String) (oldPath newPath b newName : String)
    (h1 : ∀ e ∈ l1, e.1 ≠ oldPath) (h2 : ∀ e ∈ l2, e.1 ≠ oldPath)
    (hn1 : ∀ e ∈ l1, e.1 ≠ newPath) (hn2 : ∀ e ∈ l2, e.1 ≠ newPath) :
    (renameEarlier ⟨l1 ++ (oldPath, b) :: l2, branches⟩ oldPath newPath b newName).branches =
      (renameLater ⟨l1 ++ (oldPath, b) :: l2, branches⟩ oldPath newPath newName).branches ∧
    ((renameEarlier ⟨l1 ++ (oldPath, b) :: l2, branches⟩ oldPath newPath
        b newName).worktrees).Perm
      ((renameLater ⟨l1 ++ (oldPath, b) :: l2, branches⟩ oldPath newPath
        newName).worktrees) ∧
    lookupBranch (renameEarlier ⟨l1 ++ (oldPath, b) :: l2, branches⟩ oldPath newPath
      b newName) newPath = some newName ∧
    lookupBranch (renameLater ⟨l1 ++ (oldPath, b) :: l2, branches⟩ oldPath newPath
      newName) newPath = some newName := by
  have hremove : gitWorktreeRemove ⟨l1 ++ (oldPath, b) :: l2, branches⟩ oldPath =
      ⟨l1 ++ l2, branches⟩ := by
    simp only [gitWorktreeRemove, List.filter_append, List.filter_cons]
    rw [filter_keep_of_ne l1 oldPath h1, filter_keep_of_ne l2 oldPath h2]
    simp
  have hmove : gitWorktreeMove ⟨l1 ++ (oldPath, b) :: l2, branches⟩ oldPath newPath =
      ⟨l1 ++ (newPath, b) :: l2, branches⟩ := by
    simp only [gitWorktreeMove, List.map_append, List.map_cons]
    rw [map_move_of_ne l1 oldPath newPath h1, map_move_of_ne l2 oldPath newPath h2]
    simp
  have hfind : ((l1 ++ (newPath, b) :: l2).find? fun e => e.1 == newPath) =
      some (newPath, b) := by
    rw [List.find?_append, find?_fst_none l1 newPath hn1]
    simp [List.find?]
  have hE : renameEarlier ⟨l1 ++ (oldPath, b) :: l2, branches⟩ oldPath newPath b newName =
      ⟨(l1.map fun e => if e.2 == b then (e.1, newName) else e) ++
        ((l2.map fun e => if e.2 == b then (e.1, newName) else e) ++ [(newPath, newName)]),
        branches.map fun x => if x == b then newName else x⟩ := by
    rw [renameEarlier, hremove]
    simp [gitBranchRenameExplicit, gitWorktreeAdd, List.map_append]
  have hL : renameLater ⟨l1 ++ (oldPath, b) :: l2, branches⟩ oldPath newPath newName =
      ⟨(l1.map fun e => if e.2 == b then (e.1, newName) else e) ++
        ((newPath, newName) :: (l2.map fun e => if e.2 == b then (e.1, newName) else e)),
        branches.map fun x => if x == b then newName else x⟩ := by
    rw [renameLater, hmove]
    simp only [gitBranchRenameCurrent, hfind]
    simp [gitBranchRenameExplicit, List.map_append, List.map_cons]
  rw [hE, hL]
  refine ⟨rfl, ?_, ?_, ?_⟩
  · exact List.Perm.append_left _ (List.perm_append_singleton _ _)
  · simp only [lookupBranch, List.find?_append,
      find?_branchmap_none l1 b newName newPath hn1,
      find?_branchmap_none l2 b newName newPath hn2]
    simp [List.find?]
  · simp only [lookupBranch, List.find?_append,
      find?_branchmap_none l1 b newName newPath hn1]
    simp [List.find?]

/-- C8 witness: both variants at a concrete three-worktree repository. -/
theorem rename_variants_equivalent_witness :
    (renameEarlier ⟨[("/w/x", "bx")] ++ ("/w/old", "old") :: [("/w/y", "by")],
        ["bx", "old", "by"]⟩ "/w/old" "/w/new" "old" "new").branches =
      (renameLater ⟨[("/w/x", "bx")] ++ ("/w/old", "old") :: [("/w/y", "by")],
        ["bx", "old", "by"]⟩ "/w/old" "/w/new" "new").branches ∧
    ((renameEarlier ⟨[("/w/x", "bx")] ++ ("/w/old", "old") :: [("/w/y", "by")],
        ["bx", "old", "by"]⟩ "/w/old" "/w/new" "old" "new").worktrees).Perm
      ((renameLater ⟨[("/w/x", "bx")] ++ ("/w/old", "old") :: [("/w/y", "by")],
        ["bx", "old", "by"]⟩ "/w/old" "/w/new" "new").worktrees) ∧
    lookupBranch (renameEarlier ⟨[("/w/x", "bx")] ++ ("/w/old", "old") :: [("/w/y", "by")],
      ["bx", "old", "by"]⟩ "/w/old" "/w/new" "old" "new") "/w/new" = some "new" ∧
    lookupBranch (renameLater ⟨[("/w/x", "bx")] ++ ("/w/old", "old") :: [("/w/y", "by")],
      ["bx", "old", "by"]⟩ "/w/old" "/w/new" "new") "/w/new" = some "new" :=
  rename_variants_equivalent [("/w/x", "bx")] [("/w/y", "by")] ["bx", "old", "by"]
    "/w/old" "/w/new" "old" "new" (by decide) (by decide) (by decide) (by decide)

end Wt
